import Mathlib

/-!
Shallow embedding of the IPC channel core (`src/src/ipc_channel.h`) of the
simple-ipc-lib repository.

The channel orchestrates four collaborators: a transport, an encoder, a
decoder and a dispatch object.  The encoder, decoder, transport and dispatch
are external (template parameters in the source); here they appear as
explicit parameters: the encoder as a record of transition functions over
its private state, the transport send as a function from the produced buffer
to the returned count, the decode phase as its outcome (success flag plus
the accumulated `RxHandler` state, which the channel owns and which is
embedded faithfully below), and the dispatch as a partial map from message
ids to handler functions.

The wire value type (`WireType` in the source) lives in `ipc_wire_types.h`,
which is not part of the sources given; its closed list of tags and payload
categories is modelled from the spec (section 3 and 4.1).  Everything about
`Channel` itself (`Send`, `Receive`, `AddMsgElement`, `RxHandler`) is
translated directly from `ipc_channel.h`.
-/

/-- Modelled from the spec, section 3: the closed list of wire type tags
(the `ipc::TYPE_*` enumeration of the missing `ipc_wire_types.h`).  The
constructor order mirrors the list in the spec. -/
inductive Tag where
  | none
  | int32
  | uint32
  | char8
  | char16
  | nullstring8
  | nullstring16
  | string8
  | barray
  | string16
  | unixFd
  | winHandle
deriving DecidableEq, Repr

/-- Modelled from the spec, sections 3 and 4.1: `WireType`, a tagged variant
with one payload per tag.  Fixed width scalars are carried as mathematical
integers (the machine ranges are captured by `wf` below); strings and byte
arrays are sequences of code units; file descriptors and handles are opaque
numeric values. -/
inductive WireValue where
  | none
  | int32 (v : Int)
  | uint32 (v : Nat)
  | char8 (v : Nat)
  | char16 (v : Nat)
  | nullstring8
  | nullstring16
  | string8 (s : List Nat)
  | barray (s : List Nat)
  | string16 (s : List Nat)
  | unixFd (fd : Int)
  | winHandle (h : Nat)
deriving DecidableEq, Repr

/-- The active tag of a wire value (`WireType::Id()` in the source). -/
def tagOf : WireValue → Tag
  | .none => .none
  | .int32 _ => .int32
  | .uint32 _ => .uint32
  | .char8 _ => .char8
  | .char16 _ => .char16
  | .nullstring8 => .nullstring8
  | .nullstring16 => .nullstring16
  | .string8 _ => .string8
  | .barray _ => .barray
  | .string16 _ => .string16
  | .unixFd _ => .unixFd
  | .winHandle _ => .winHandle

/-- Modelled from the spec, section 4.1: the scalar payloads of a `WireType`
are machine values (C `int`, `unsigned int`, 8 bit and 16 bit characters),
so a value that a real program can construct has its payload inside the
machine range. -/
def wf : WireValue → Bool
  | .int32 v => decide (-2147483648 ≤ v ∧ v < 2147483648)
  | .uint32 v => decide (v < 4294967296)
  | .char8 v => decide (v < 256)
  | .char16 v => decide (v < 65536)
  | _ => true

/-- Reading a 32 bit word back as a signed C `int` (the
`reinterpret_cast<const int*>` read in `RxHandler::OnWord`). -/
def toInt32 (w : Nat) : Int :=
  if w % 4294967296 < 2147483648 then ((w % 4294967296 : Nat) : Int)
  else ((w % 4294967296 : Nat) : Int) - 4294967296

/-- Modelled from the spec, section 4.1: `WireType::GetAsBits`, the raw bits
accessor, valid for the fixed width scalar tags; the source also applies it
to the null string tags, whose stored pointer is null, hence bits zero. -/
def getAsBits : WireValue → Nat
  | .int32 v => (v % 4294967296).toNat
  | .uint32 v => v % 4294967296
  | .char8 v => v % 256
  | .char16 v => v % 65536
  | _ => 0

/-- The tags for which the receive side accumulator has a decoding path:
`RxHandler::OnWord` handles the six word carried tags, `OnString8` the two
8 bit payload tags and `OnString16` the wide string tag. -/
def rxTags : List Tag :=
  [.int32, .uint32, .char8, .char16, .nullstring8, .nullstring16,
   .string8, .barray, .string16]

/-- State of `Channel::RxHandler`: the accumulated argument vector `list_`
and the message id `msg_id_`. -/
structure RxState where
  list : List WireValue
  msgId : Int
deriving DecidableEq, Repr

/-- The `RxHandler` constructor: `msg_id_(-1)` and an empty vector. -/
def RxState.init : RxState := ⟨[], -1⟩

namespace RxHandler

/-- `RxHandler::OnMessageStart`: records the id, reserves capacity (a
capacity reservation has no observable effect here) and returns true
unconditionally. -/
def OnMessageStart (s : RxState) (id : Int) (_nArgs : Nat) : RxState × Bool :=
  ({ s with msgId := id }, true)

/-- `RxHandler::OnWord`: switches on the type id over the six word carried
tags, appending the decoded value; any other tag falls to the default case
and returns false. -/
def OnWord (s : RxState) (bits : Nat) (tid : Tag) : RxState × Bool :=
  match tid with
  | .int32 => ({ s with list := s.list ++ [.int32 (toInt32 bits)] }, true)
  | .uint32 => ({ s with list := s.list ++ [.uint32 (bits % 4294967296)] }, true)
  | .char8 => ({ s with list := s.list ++ [.char8 (bits % 256)] }, true)
  | .char16 => ({ s with list := s.list ++ [.char16 (bits % 65536)] }, true)
  | .nullstring8 => ({ s with list := s.list ++ [.nullstring8] }, true)
  | .nullstring16 => ({ s with list := s.list ++ [.nullstring16] }, true)
  | _ => (s, false)

/-- `RxHandler::OnString8`: the string tag and the byte array tag are told
apart purely by the type id; any other tag returns false. -/
def OnString8 (s : RxState) (str : List Nat) (tid : Tag) : RxState × Bool :=
  match tid with
  | .string8 => ({ s with list := s.list ++ [.string8 str] }, true)
  | .barray => ({ s with list := s.list ++ [.barray str] }, true)
  | _ => (s, false)

/-- `RxHandler::OnString16`: only the wide string tag is accepted. -/
def OnString16 (s : RxState) (str : List Nat) (tid : Tag) : RxState × Bool :=
  match tid with
  | .string16 => ({ s with list := s.list ++ [.string16 str] }, true)
  | _ => (s, false)

/-- `RxHandler::MsgId`. -/
def MsgId (s : RxState) : Int := s.msgId

/-- `RxHandler::GetArg` returns `list_[ix]` through the unchecked vector
subscript operator: an index outside the vector has no defined result,
modelled as `none`. -/
def GetArg (s : RxState) (ix : Nat) : Option WireValue := s.list.get? ix

/-- `RxHandler::GetArgCount`. -/
def GetArgCount (s : RxState) : Nat := s.list.length

end RxHandler

/-- `Channel::kMaxNumArgs`. -/
def kMaxNumArgs : Nat := 8

/-- The argument gathering loop of `Channel::Receive`:
`for (ix = 0; ix != np; ++ix) args[ix] = &handler.GetArg(ix);`. -/
def collectArgs (h : RxState) : Nat → List (Option WireValue)
  | 0 => []
  | n + 1 => collectArgs h n ++ [RxHandler.GetArg h n]

/-- The body of `Channel::Receive` after the transport pull loop.  The
decode phase is summarised by its outcome: `success` is `decoder.Success()`
and `h` is the state the decoder callbacks left in the call local
`RxHandler`.  `mh` is `top_dispatch->MsgHandler`, returning the resolved
handler (`OnMsgIn`, with the channel pointer argument elided) or none for a
null pointer.  The result pairs the returned count or sentinel with the
handler invocation performed, if any, recorded as the message id and
argument list that were handed to `OnMsgIn`. -/
def Receive (success : Bool) (h : RxState)
    (mh : Int → Option (Int → List WireValue → Int)) :
    Int × Option (Int × List WireValue) :=
  if success = false then (-1, none)
  else
    let np := RxHandler.GetArgCount h
    if kMaxNumArgs < np then (-2, none)
    else
      let args := (collectArgs h np).reduceOption
      match mh (RxHandler.MsgId h) with
      | some onMsgIn =>
          (onMsgIn (RxHandler.MsgId h) args, some (RxHandler.MsgId h, args))
      | none => (-3, none)

/-- One call made by `Channel::Send` on its encoder, with the arguments
passed (the sending requirements block at the top of `ipc_channel.h`). -/
inductive EncCall where
  | Open (nArgs : Nat)
  | OnWord (bits : Nat) (tag : Tag)
  | OnString8 (s : List Nat) (tag : Tag)
  | OnString16 (s : List Nat) (tag : Tag)
  | OnUnixFd (fd : Int) (tag : Tag)
  | OnWinHandle (h : Nat) (tag : Tag)
  | SetMsgId (id : Int)
  | Close
  | GetBuffer
deriving DecidableEq, Repr

/-- The encoder contract of `Channel::Send`, as a record of transition
functions over the encoder private state `σ`; `GetBuffer` yields the
finished buffer of type `β` or none for a null pointer. -/
structure EncoderOps (σ β : Type) where
  init : σ
  Open : σ → Nat → σ × Bool
  OnWord : σ → Nat → Tag → σ × Bool
  OnString8 : σ → List Nat → Tag → σ × Bool
  OnString16 : σ → List Nat → Tag → σ × Bool
  OnUnixFd : σ → Int → Tag → σ × Bool
  OnWinHandle : σ → Nat → Tag → σ × Bool
  SetMsgId : σ → Int → σ
  Close : σ → σ × Bool
  GetBuffer : σ → Option β

/-- `Channel::AddMsgElement`: dispatches on the tag of the element to the
matching encoder method, converting string and byte array payloads through
an intermediate owned copy (which carries the same code units).  The `none`
tag returns false without touching the encoder.  Besides the new encoder
state and the returned flag, the embedding also records the encoder calls
performed. -/
def AddMsgElement {σ β : Type} (E : EncoderOps σ β) (st : σ) :
    WireValue → σ × Bool × List EncCall
  | .none => (st, false, [])
  | .int32 v =>
      let r := E.OnWord st (getAsBits (.int32 v)) .int32
      (r.1, r.2, [.OnWord (getAsBits (.int32 v)) .int32])
  | .uint32 v =>
      let r := E.OnWord st (getAsBits (.uint32 v)) .uint32
      (r.1, r.2, [.OnWord (getAsBits (.uint32 v)) .uint32])
  | .char8 v =>
      let r := E.OnWord st (getAsBits (.char8 v)) .char8
      (r.1, r.2, [.OnWord (getAsBits (.char8 v)) .char8])
  | .char16 v =>
      let r := E.OnWord st (getAsBits (.char16 v)) .char16
      (r.1, r.2, [.OnWord (getAsBits (.char16 v)) .char16])
  | .string8 s =>
      let r := E.OnString8 st s .string8
      (r.1, r.2, [.OnString8 s .string8])
  | .barray s =>
      let r := E.OnString8 st s .barray
      (r.1, r.2, [.OnString8 s .barray])
  | .string16 s =>
      let r := E.OnString16 st s .string16
      (r.1, r.2, [.OnString16 s .string16])
  | .nullstring8 =>
      let r := E.OnWord st (getAsBits .nullstring8) .nullstring8
      (r.1, r.2, [.OnWord (getAsBits .nullstring8) .nullstring8])
  | .nullstring16 =>
      let r := E.OnWord st (getAsBits .nullstring16) .nullstring16
      (r.1, r.2, [.OnWord (getAsBits .nullstring16) .nullstring16])
  | .unixFd fd =>
      let r := E.OnUnixFd st fd .unixFd
      (r.1, r.2, [.OnUnixFd fd .unixFd])
  | .winHandle h =>
      let r := E.OnWinHandle st h .winHandle
      (r.1, r.2, [.OnWinHandle h .winHandle])

/-- The encoder calls one element gives rise to: a pure function of the
element, since `AddMsgElement` always calls the method selected by the tag
with arguments drawn from the element alone. -/
def elemCalls : WireValue → List EncCall
  | .none => []
  | .int32 v => [.OnWord (getAsBits (.int32 v)) .int32]
  | .uint32 v => [.OnWord (getAsBits (.uint32 v)) .uint32]
  | .char8 v => [.OnWord (getAsBits (.char8 v)) .char8]
  | .char16 v => [.OnWord (getAsBits (.char16 v)) .char16]
  | .string8 s => [.OnString8 s .string8]
  | .barray s => [.OnString8 s .barray]
  | .string16 s => [.OnString16 s .string16]
  | .nullstring8 => [.OnWord (getAsBits .nullstring8) .nullstring8]
  | .nullstring16 => [.OnWord (getAsBits .nullstring16) .nullstring16]
  | .unixFd fd => [.OnUnixFd fd .unixFd]
  | .winHandle h => [.OnWinHandle h .winHandle]

/-- The element loop of `Channel::Send`: each `AddMsgElement` result flag is
discarded, exactly as in the source (`AddMsgElement(&encoder, *args[ix]);`
with the returned bool unused). -/
def sendLoop {σ β : Type} (E : EncoderOps σ β) (st : σ) :
    List WireValue → σ × List EncCall
  | [] => (st, [])
  | a :: rest =>
      let r := AddMsgElement E st a
      let q := sendLoop E r.1 rest
      (q.1, r.2.2 ++ q.2)

/-- The encoding phase of `Channel::Send` up to and including `Close`:
`Open` (return value ignored, as in the source), the element loop,
`SetMsgId`, `Close`.  Yields the final encoder state, the `Close` flag and
the call trace so far. -/
def SendRun {σ β : Type} (E : EncoderOps σ β) (msg_id : Int)
    (args : List WireValue) : σ × Bool × List EncCall :=
  let s1 := (E.Open E.init args.length).1
  let r := sendLoop E s1 args
  let s3 := E.SetMsgId r.1 msg_id
  let c := E.Close s3
  (c.1, c.2, .Open args.length :: (r.2 ++ [.SetMsgId msg_id, .Close]))

/-- `Channel::Send`.  `tSend` is `transport_->Send` applied to the finished
buffer (the byte count argument is determined by the buffer).  Returns the
result (the transport count, or the sentinel -1 when `Close` fails, or -2
when `GetBuffer` yields no buffer) paired with the trace of encoder calls
made. -/
def Send {σ β : Type} (E : EncoderOps σ β) (tSend : β → Int) (msg_id : Int)
    (args : List WireValue) : Int × List EncCall :=
  let r := SendRun E msg_id args
  if r.2.1 = false then (-1, r.2.2)
  else
    match E.GetBuffer r.1 with
    | none => (-2, r.2.2 ++ [.GetBuffer])
    | some buf => (tSend buf, r.2.2 ++ [.GetBuffer])

/-- The buffer `Channel::Send` hands to the transport, when it reaches the
transport at all.  Defined from the same `SendRun` phase as `Send`. -/
def sendBuffer {σ β : Type} (E : EncoderOps σ β) (msg_id : Int)
    (args : List WireValue) : Option β :=
  let r := SendRun E msg_id args
  if r.2.1 = false then none else E.GetBuffer r.1

/-- One element of a reference wire frame: the argument carrying encoder
events, in emission order. -/
inductive EncEvent where
  | word (bits : Nat) (tag : Tag)
  | str8 (s : List Nat) (tag : Tag)
  | str16 (s : List Nat) (tag : Tag)
  | fdEvent (fd : Int) (tag : Tag)
  | handleEvent (h : Nat) (tag : Tag)
deriving DecidableEq, Repr

/-- Modelled from the spec, sections 4.2 and 6: the wire byte layout is
deliberately unspecified, so the reference encoder buffer is the recorded
frame itself: the argument count announced to `Open`, the message id and
the ordered argument events. -/
structure Frame where
  openCount : Nat
  msgId : Int
  events : List EncEvent
deriving DecidableEq, Repr

/-- Modelled from the spec, section 4.2: a reference encoder that records
every call and always succeeds; its buffer is the recorded frame. -/
def refEncoder : EncoderOps Frame Frame where
  init := ⟨0, 0, []⟩
  Open := fun s n => ({ s with openCount := n }, true)
  OnWord := fun s b t => ({ s with events := s.events ++ [.word b t] }, true)
  OnString8 := fun s str t => ({ s with events := s.events ++ [.str8 str t] }, true)
  OnString16 := fun s str t => ({ s with events := s.events ++ [.str16 str t] }, true)
  OnUnixFd := fun s fd t => ({ s with events := s.events ++ [.fdEvent fd t] }, true)
  OnWinHandle := fun s h t => ({ s with events := s.events ++ [.handleEvent h t] }, true)
  SetMsgId := fun s id => { s with msgId := id }
  Close := fun s => (s, true)
  GetBuffer := fun s => some s

/-- The frame events the reference encoder records for one element. -/
def elemEvents : WireValue → List EncEvent
  | .none => []
  | .int32 v => [.word (getAsBits (.int32 v)) .int32]
  | .uint32 v => [.word (getAsBits (.uint32 v)) .uint32]
  | .char8 v => [.word (getAsBits (.char8 v)) .char8]
  | .char16 v => [.word (getAsBits (.char16 v)) .char16]
  | .string8 s => [.str8 s .string8]
  | .barray s => [.str8 s .barray]
  | .string16 s => [.str16 s .string16]
  | .nullstring8 => [.word (getAsBits .nullstring8) .nullstring8]
  | .nullstring16 => [.word (getAsBits .nullstring16) .nullstring16]
  | .unixFd fd => [.fdEvent fd .unixFd]
  | .winHandle h => [.handleEvent h .winHandle]

/-- Modelled from the spec, section 4.3: one decoder replay step.  The
decoder hands word events to `Handler::OnWord`, 8 bit payload events to
`Handler::OnString8` and wide string events to `Handler::OnString16`.  The
handler contract in `ipc_channel.h` offers no callback for file descriptor
or handle events, so a frame containing one cannot be delivered and decoding
it fails. -/
def replayStep (s : RxState) : EncEvent → RxState × Bool
  | .word b t => RxHandler.OnWord s b t
  | .str8 str t => RxHandler.OnString8 s str t
  | .str16 str t => RxHandler.OnString16 s str t
  | .fdEvent _ _ => (s, false)
  | .handleEvent _ _ => (s, false)

/-- Modelled from the spec, section 4.3: the decoder feeds the events to
the handler in order and treats a false callback return as authoritative,
stopping and reporting overall failure. -/
def replay (s : RxState) : List EncEvent → Bool × RxState
  | [] => (true, s)
  | e :: es =>
      let r := replayStep s e
      if r.2 = true then replay r.1 es else (false, r.1)

/-- Modelled from the spec, section 4.3: the reference decoder run over a
full frame: `OnMessageStart` with the frame id and announced count, then
one callback per argument event; succeeds exactly when every callback
accepted. -/
def runDecoder (fr : Frame) : Bool × RxState :=
  let r0 := RxHandler.OnMessageStart RxState.init fr.msgId fr.openCount
  if r0.2 = true then replay r0.1 fr.events else (false, r0.1)

/-- `Receive(Send(args))` through the reference encoder and decoder pair,
with the transport looping the sent buffer back to the receiver. -/
def roundTrip (msg_id : Int) (args : List WireValue)
    (mh : Int → Option (Int → List WireValue → Int)) :
    Int × Option (Int × List WireValue) :=
  match sendBuffer refEncoder msg_id args with
  | some fr =>
      let d := runDecoder fr
      Receive d.1 d.2 mh
  | none => (-1, none)

/-- A trivially successful encoder over a unit state, except that `Open`
reports failure.  Used to exercise how `Send` treats an `Open` failure. -/
def openFailEnc : EncoderOps Unit Unit where
  init := ()
  Open := fun s _ => (s, false)
  OnWord := fun s _ _ => (s, true)
  OnString8 := fun s _ _ => (s, true)
  OnString16 := fun s _ _ => (s, true)
  OnUnixFd := fun s _ _ => (s, true)
  OnWinHandle := fun s _ _ => (s, true)
  SetMsgId := fun s _ => s
  Close := fun s => (s, true)
  GetBuffer := fun _ => some ()

/-- A trivially successful encoder whose word callback rejects every tag.
Used to exercise how `Send` treats an encoder that rejects an argument. -/
def rejectWordEnc : EncoderOps Unit Unit where
  init := ()
  Open := fun s _ => (s, true)
  OnWord := fun s _ _ => (s, false)
  OnString8 := fun s _ _ => (s, true)
  OnString16 := fun s _ _ => (s, true)
  OnUnixFd := fun s _ _ => (s, true)
  OnWinHandle := fun s _ _ => (s, true)
  SetMsgId := fun s _ => s
  Close := fun s => (s, true)
  GetBuffer := fun _ => some ()

/-- A trivially successful encoder whose `Close` fails. -/
def closeFailEnc : EncoderOps Unit Unit where
  init := ()
  Open := fun s _ => (s, true)
  OnWord := fun s _ _ => (s, true)
  OnString8 := fun s _ _ => (s, true)
  OnString16 := fun s _ _ => (s, true)
  OnUnixFd := fun s _ _ => (s, true)
  OnWinHandle := fun s _ _ => (s, true)
  SetMsgId := fun s _ => s
  Close := fun s => (s, false)
  GetBuffer := fun _ => some ()

/-- A trivially successful encoder whose `GetBuffer` yields no buffer. -/
def noBufEnc : EncoderOps Unit Unit where
  init := ()
  Open := fun s _ => (s, true)
  OnWord := fun s _ _ => (s, true)
  OnString8 := fun s _ _ => (s, true)
  OnString16 := fun s _ _ => (s, true)
  OnUnixFd := fun s _ _ => (s, true)
  OnWinHandle := fun s _ _ => (s, true)
  SetMsgId := fun s _ => s
  Close := fun s => (s, true)
  GetBuffer := fun _ => none

/-- A dispatch handler returning the argument count, and a dispatch map
that resolves it for message id 7 only. -/
def onLen : Int → List WireValue → Int := fun _ args => (args.length : Int)

/-- Dispatch map resolving message id 7 to `onLen` and nothing else. -/
def mhSeven : Int → Option (Int → List WireValue → Int) :=
  fun i => if i = 7 then some onLen else none

/-- A dispatch handler returning the message id, resolved for id -1 only. -/
def mhNeg : Int → Option (Int → List WireValue → Int) :=
  fun i => if i = -1 then some (fun id _ => id) else none

/-- A dispatch map that resolves no message id at all. -/
def mhNone : Int → Option (Int → List WireValue → Int) := fun _ => none

/- Helper lemmas. -/

/-- The encoder calls `AddMsgElement` performs depend only on the element. -/
theorem AddMsgElement_calls {σ β : Type} (E : EncoderOps σ β) (st : σ)
    (a : WireValue) : (AddMsgElement E st a).2.2 = elemCalls a := by
  cases a <;> rfl

/-- The trace of the element loop is one call group per argument, in
argument order, independent of the encoder. -/
theorem sendLoop_trace {σ β : Type} (E : EncoderOps σ β) (st : σ)
    (args : List WireValue) :
    (sendLoop E st args).2 = args.flatMap elemCalls := by
  induction args generalizing st with
  | nil => rfl
  | cons a rest ih => simp [sendLoop, AddMsgElement_calls, ih]

/-- Action of one element on the reference encoder state. -/
theorem AddMsgElement_ref (s : Frame) (a : WireValue) :
    AddMsgElement refEncoder s a
      = ({ s with events := s.events ++ elemEvents a },
         decide (tagOf a ≠ Tag.none), elemCalls a) := by
  cases a <;> simp [AddMsgElement, refEncoder, elemEvents, elemCalls, tagOf]

/-- The element loop on the reference encoder appends one recorded event
group per argument. -/
theorem sendLoop_ref (args : List WireValue) (s : Frame) :
    sendLoop refEncoder s args
      = ({ s with events := s.events ++ args.flatMap elemEvents },
         args.flatMap elemCalls) := by
  induction args generalizing s with
  | nil => simp [sendLoop]
  | cons a rest ih =>
      simp [sendLoop, AddMsgElement_ref, ih]

/-- The buffer `Send` produces through the reference encoder: the announced
argument count, the message id and the recorded events of every argument. -/
theorem sendBuffer_ref (msg_id : Int) (args : List WireValue) :
    sendBuffer refEncoder msg_id args
      = some ⟨args.length, msg_id, args.flatMap elemEvents⟩ := by
  have h1 : (refEncoder.Open refEncoder.init args.length).1
      = (⟨args.length, 0, []⟩ : Frame) := rfl
  simp only [sendBuffer, SendRun]
  rw [h1, sendLoop_ref]
  rfl

/-- A signed 32 bit value survives the bits round trip. -/
theorem toInt32_getAsBits (v : Int) (h1 : -2147483648 ≤ v)
    (h2 : v < 2147483648) : toInt32 (getAsBits (.int32 v)) = v := by
  simp only [toInt32, getAsBits]
  split <;> omega

/-- Replaying the event of one receive supported, well formed element
appends exactly that element and accepts. -/
theorem replay_elem (a : WireValue) (h1 : tagOf a ∈ rxTags)
    (h2 : wf a = true) (s : RxState) (es : List EncEvent) :
    replay s (elemEvents a ++ es)
      = replay { s with list := s.list ++ [a] } es := by
  cases a with
  | none => simp [tagOf, rxTags] at h1
  | int32 v =>
      have hv : -2147483648 ≤ v ∧ v < 2147483648 := by
        simpa [wf] using h2
      simp [elemEvents, replay, replayStep, RxHandler.OnWord,
        toInt32_getAsBits v hv.1 hv.2]
  | uint32 v =>
      have hv : v < 4294967296 := by simpa [wf] using h2
      simp [elemEvents, replay, replayStep, RxHandler.OnWord, getAsBits,
        Nat.mod_eq_of_lt hv]
  | char8 v =>
      have hv : v < 256 := by simpa [wf] using h2
      simp [elemEvents, replay, replayStep, RxHandler.OnWord, getAsBits,
        Nat.mod_eq_of_lt hv]
  | char16 v =>
      have hv : v < 65536 := by simpa [wf] using h2
      simp [elemEvents, replay, replayStep, RxHandler.OnWord, getAsBits,
        Nat.mod_eq_of_lt hv]
  | nullstring8 => simp [elemEvents, replay, replayStep, RxHandler.OnWord]
  | nullstring16 => simp [elemEvents, replay, replayStep, RxHandler.OnWord]
  | string8 str => simp [elemEvents, replay, replayStep, RxHandler.OnString8]
  | barray str => simp [elemEvents, replay, replayStep, RxHandler.OnString8]
  | string16 str => simp [elemEvents, replay, replayStep, RxHandler.OnString16]
  | unixFd fd => simp [tagOf, rxTags] at h1
  | winHandle hh => simp [tagOf, rxTags] at h1

/-- Replaying the recorded events of a list of receive supported, well
formed elements accepts and appends exactly those elements in order. -/
theorem replay_elems (args : List WireValue)
    (h : ∀ a ∈ args, tagOf a ∈ rxTags ∧ wf a = true) (s : RxState) :
    replay s (args.flatMap elemEvents)
      = (true, { s with list := s.list ++ args }) := by
  induction args generalizing s with
  | nil => simp [replay]
  | cons a rest ih =>
      have ha := h a (by simp)
      have hr : ∀ b ∈ rest, tagOf b ∈ rxTags ∧ wf b = true :=
        fun b hb => h b (by simp [hb])
      rw [List.flatMap_cons, replay_elem a ha.1 ha.2, ih hr]
      simp

/-- The argument gathering loop reads exactly the first `n` decoded
arguments when `n` is within bounds. -/
theorem collectArgs_take (s : RxState) :
    ∀ n, n ≤ s.list.length → collectArgs s n = (s.list.take n).map some := by
  intro n
  induction n with
  | zero => intro _; rfl
  | succ k ih =>
      intro hk
      have hlt : k < s.list.length := by omega
      have hget : s.list[k]? = some s.list[k] :=
        List.getElem?_eq_some.mpr ⟨hlt, rfl⟩
      have hget2 : (List.map some s.list)[k]? = some (some s.list[k]) := by
        rw [List.getElem?_map, hget]; rfl
      rw [collectArgs, ih (by omega), RxHandler.GetArg,
        List.get?_eq_getElem?, hget, List.map_take, List.map_take,
        List.take_succ, hget2]
      rfl

/-- Dropping the `some` wrappers recovers the list. -/
theorem reduceOption_map_some {α : Type} (l : List α) :
    (l.map some).reduceOption = l := by
  induction l with
  | nil => rfl
  | cons a t ih =>
      rw [List.map_cons, List.reduceOption_cons_of_some, ih]

/-- The successful path of `Receive`: within the cap and with a resolved
handler, the decoded arguments are delivered in order. -/
theorem Receive_success (l : List WireValue) (id : Int)
    (mh : Int → Option (Int → List WireValue → Int))
    (f : Int → List WireValue → Int)
    (hlen : l.length ≤ kMaxNumArgs) (hmh : mh id = some f) :
    Receive true ⟨l, id⟩ mh = (f id l, some (id, l)) := by
  have hc : collectArgs ⟨l, id⟩ l.length = l.map some := by
    have h := collectArgs_take ⟨l, id⟩ l.length (le_refl _)
    simpa using h
  have hnot : ¬ kMaxNumArgs < l.length := not_lt.mpr hlen
  simp [Receive, RxHandler.GetArgCount, RxHandler.MsgId, hnot, hc,
    reduceOption_map_some, hmh]

/-- The element loop skips elements whose tag the element step rejects:
`AddMsgElement` returns false for the `none` tag without calling the
encoder, and the loop discards the flag, so the loop over any list equals
the loop over the list with the `none` tagged elements removed. -/
theorem sendLoop_filter_none {σ β : Type} (E : EncoderOps σ β) (st : σ)
    (args : List WireValue) :
    sendLoop E st args
      = sendLoop E st (args.filter (fun a => decide (tagOf a ≠ Tag.none))) := by
  induction args generalizing st with
  | nil => rfl
  | cons a rest ih =>
      cases a with
      | none => simpa [sendLoop, AddMsgElement, List.filter_cons, tagOf]
          using ih st
      | _ => simp [sendLoop, List.filter_cons, tagOf, ih]

/-- The encoding phase through the reference encoder, fully evaluated. -/
theorem SendRun_ref (msg_id : Int) (args : List WireValue) :
    SendRun refEncoder msg_id args
      = (⟨args.length, msg_id, args.flatMap elemEvents⟩, true,
         .Open args.length
           :: (args.flatMap elemCalls ++ [.SetMsgId msg_id, .Close])) := by
  have h1 : (refEncoder.Open refEncoder.init args.length).1
      = (⟨args.length, 0, []⟩ : Frame) := rfl
  simp only [SendRun]
  rw [h1, sendLoop_ref]
  rfl

/-- The over cap branch of `Receive`: the check happens right after the
success check, before dispatch resolution. -/
theorem Receive_over_cap (h : RxState)
    (mh : Int → Option (Int → List WireValue → Int))
    (hcap : kMaxNumArgs < RxHandler.GetArgCount h) :
    Receive true h mh = (-2, none) := by
  simp [Receive, hcap]

/- Claim theorems. -/

/-- C1, counterexample to the claim as stated: the round trip does not
reproduce the argument sequence for every WireValue tag.  Sending message
id 7 with the single argument list `[none]` dispatches a message with an
empty argument list, because `Send` silently drops a `none` tagged
argument, so the dispatched sequence differs from the sent one. -/
theorem C1_roundTrip_none_counterexample :
    roundTrip 7 [WireValue.none] mhSeven = (0, some (7, []))
    ∧ ([] : List WireValue) ≠ [WireValue.none] := by decide

/-- C1, amended: for every message id and every argument list of length at
most `kMaxNumArgs` whose elements carry a tag with a receive side
accumulator path (every tag except `none`, `unixFd` and `winHandle`) and a
payload in machine range, sending through the reference encoder and
receiving the produced frame through the reference decoder delivers the
same message id and the same ordered argument sequence to the resolved
dispatch handler. -/
theorem C1_roundTrip_supported (msg_id : Int) (args : List WireValue)
    (hlen : args.length ≤ kMaxNumArgs)
    (hargs : ∀ a ∈ args, tagOf a ∈ rxTags ∧ wf a = true)
    (mh : Int → Option (Int → List WireValue → Int))
    (f : Int → List WireValue → Int) (hmh : mh msg_id = some f) :
    roundTrip msg_id args mh = (f msg_id args, some (msg_id, args)) := by
  have hd : runDecoder ⟨args.length, msg_id, args.flatMap elemEvents⟩
      = (true, ⟨args, msg_id⟩) := by
    simp only [runDecoder, RxHandler.OnMessageStart]
    rw [if_pos trivial, replay_elems args hargs]
    rfl
  simp only [roundTrip, sendBuffer_ref, hd]
  exact Receive_success args msg_id mh f hlen hmh

/-- C1 witness: the scenario of the spec, message id 7 with an int32 and
an 8 bit string argument, round trips to the handler registered for id 7. -/
theorem C1_roundTrip_supported_witness :
    roundTrip 7 [WireValue.int32 42, WireValue.string8 [112, 105, 110, 103]]
        mhSeven
      = (onLen 7 [WireValue.int32 42, WireValue.string8 [112, 105, 110, 103]],
         some (7, [WireValue.int32 42,
                   WireValue.string8 [112, 105, 110, 103]])) :=
  C1_roundTrip_supported 7 _ (by decide) (by decide) mhSeven onLen
    (by simp [mhSeven])

/-- C2, counterexample to the claim as stated: a failure returned by `Open`
does not abort the send.  With an encoder whose `Open` reports failure and
everything else succeeds, `Send` still performs the word call, the message
id call, `Close` and `GetBuffer`, and returns the transport count 5 rather
than a failure result. -/
theorem C2_send_openfail_counterexample :
    (openFailEnc.Open () 1).2 = false
    ∧ Send openFailEnc (fun _ => 5) 7 [WireValue.int32 1]
        = (5, [.Open 1, .OnWord 1 .int32, .SetMsgId 7, .Close,
               .GetBuffer]) := by decide

/-- C2, amended: `Send` invokes the encoder in the order `Open`, then for
each argument in argument order the single call selected by its tag (no
call at all for an argument whose tag the element step rejects, such as the
`none` tag), then `SetMsgId`, then `Close`, and `GetBuffer` exactly when
`Close` succeeded; it aborts and reports failure only when `Close` returns
failure (result -1, skipping `GetBuffer`) or `GetBuffer` yields no buffer
(result -2, skipping the transport); failure returns of `Open` and of the
per argument calls are discarded and do not abort the send. -/
theorem C2_send_call_order {σ β : Type} (E : EncoderOps σ β)
    (tSend : β → Int) (msg_id : Int) (args : List WireValue) :
    (SendRun E msg_id args).2.2
      = .Open args.length
          :: (args.flatMap elemCalls ++ [.SetMsgId msg_id, .Close])
    ∧ (Send E tSend msg_id args).2
        = (SendRun E msg_id args).2.2
            ++ (if (SendRun E msg_id args).2.1 then [EncCall.GetBuffer]
                else [])
    ∧ ((SendRun E msg_id args).2.1 = false →
        Send E tSend msg_id args = (-1, (SendRun E msg_id args).2.2))
    ∧ ((SendRun E msg_id args).2.1 = true →
        E.GetBuffer (SendRun E msg_id args).1 = none →
        (Send E tSend msg_id args).1 = -2)
    ∧ (∀ a : WireValue, a = WireValue.none ∨ ∃ c, elemCalls a = [c])
    ∧ elemCalls WireValue.none = [] := by
  refine ⟨?_, ?_, ?_, ?_, ?_, rfl⟩
  · simp only [SendRun, sendLoop_trace]
  · rcases hb : (SendRun E msg_id args).2.1 with _ | _
    · simp [Send, hb]
    · rcases hg : E.GetBuffer (SendRun E msg_id args).1 with _ | b
        <;> simp [Send, hb, hg]
  · intro hb; simp [Send, hb]
  · intro hb hg; simp [Send, hb, hg]
  · intro a
    cases a with
    | none => exact Or.inl rfl
    | _ => exact Or.inr ⟨_, rfl⟩

/-- C2 witness: a failing `Close` yields -1 with no `GetBuffer` call, and a
missing buffer yields -2. -/
theorem C2_send_call_order_witness :
    Send closeFailEnc (fun _ => (0 : Int)) 7 []
        = (-1, (SendRun closeFailEnc 7 ([] : List WireValue)).2.2)
    ∧ (Send noBufEnc (fun _ => (0 : Int)) 7 ([] : List WireValue)).1 = -2 :=
  ⟨(C2_send_call_order closeFailEnc (fun _ => (0 : Int)) 7 []).2.2.1
      (by decide),
   (C2_send_call_order noBufEnc (fun _ => (0 : Int)) 7 []).2.2.2.1
      (by decide) (by decide)⟩

/-- C3: when the decoder terminated successfully but the accumulated
argument count exceeds the cap `kMaxNumArgs = 8`, `Receive` returns the
sentinel -2 without resolving or invoking any dispatch handler: the result
is the same for every dispatch map and records no handler invocation. -/
theorem C3_receive_cap_enforced (h : RxState)
    (mh : Int → Option (Int → List WireValue → Int))
    (hcap : kMaxNumArgs < RxHandler.GetArgCount h) :
    kMaxNumArgs = 8 ∧ Receive true h mh = (-2, none) := by
  refine ⟨rfl, ?_⟩
  simp [Receive, hcap]

/-- C3 witness: a successfully decoded message with 9 arguments, one over
the cap, is rejected with -2 and reaches no handler. -/
theorem C3_receive_cap_enforced_witness :
    kMaxNumArgs = 8
    ∧ Receive true ⟨List.replicate 9 (WireValue.int32 1), 3⟩ mhSeven
        = (-2, none) :=
  C3_receive_cap_enforced ⟨List.replicate 9 (WireValue.int32 1), 3⟩ mhSeven
    (by decide)

/-- C4: the three failure paths of `Receive` return the pairwise distinct
sentinels -1 (decoder terminated without success), -2 (argument count over
the cap) and -3 (no handler resolved for the decoded message id), and on
each of these paths no handler invocation takes place. -/
theorem C4_receive_failure_paths (h : RxState)
    (mh : Int → Option (Int → List WireValue → Int)) :
    Receive false h mh = (-1, none)
    ∧ (kMaxNumArgs < RxHandler.GetArgCount h →
        Receive true h mh = (-2, none))
    ∧ (RxHandler.GetArgCount h ≤ kMaxNumArgs →
        mh (RxHandler.MsgId h) = none → Receive true h mh = (-3, none))
    ∧ ((-1 : Int) ≠ -2 ∧ (-1 : Int) ≠ -3 ∧ ((-2 : Int) ≠ -3)) := by
  refine ⟨by simp [Receive], fun hcap => by simp [Receive, hcap],
    fun hle hmh => ?_, by decide⟩
  have hnot : ¬ kMaxNumArgs < RxHandler.GetArgCount h := not_lt.mpr hle
  simp [Receive, hnot, hmh]

/-- C4 witness: the three paths observed on concrete inputs. -/
theorem C4_receive_failure_paths_witness :
    Receive false RxState.init mhSeven = (-1, none)
    ∧ Receive true ⟨List.replicate 9 (WireValue.int32 1), 3⟩ mhSeven
        = (-2, none)
    ∧ Receive true ⟨[], 5⟩ mhNone = (-3, none) :=
  ⟨(C4_receive_failure_paths RxState.init mhSeven).1,
   (C4_receive_failure_paths ⟨List.replicate 9 (WireValue.int32 1), 3⟩
      mhSeven).2.1 (by decide),
   (C4_receive_failure_paths ⟨[], 5⟩ mhNone).2.2.1 (by decide) rfl⟩

/-- C5, counterexample to the claim as stated: an encoder that rejects the
tag of an argument produces no failure sentinel at all.  With an encoder
whose word callback returns false and a transport returning 5, `Send`
returns 5: the rejection is not mapped to any negative result, so the
three failure conditions of the claim are not all distinguishable
sentinels. -/
theorem C5_send_rejected_tag_counterexample :
    (rejectWordEnc.OnWord () 1 .int32).2 = false
    ∧ (Send rejectWordEnc (fun _ => 5) 7 [WireValue.int32 1]).1 = 5
    ∧ ¬ (Send rejectWordEnc (fun _ => 5) 7 [WireValue.int32 1]).1 < 0 := by
  decide

/-- C5, amended: `Send` maps exactly two of its failure conditions to
distinct negative sentinels: a failing `Close` yields -1 and a missing
buffer yields -2; when both succeed the transport return value is passed
through unchanged (a transport failure is whatever the transport returns,
not a channel assigned sentinel), and an encoder rejecting the tag of an
argument is not reported at all. -/
theorem C5_send_sentinels {σ β : Type} (E : EncoderOps σ β)
    (tSend : β → Int) (msg_id : Int) (args : List WireValue) :
    ((SendRun E msg_id args).2.1 = false →
      (Send E tSend msg_id args).1 = -1)
    ∧ ((SendRun E msg_id args).2.1 = true →
        E.GetBuffer (SendRun E msg_id args).1 = none →
        (Send E tSend msg_id args).1 = -2)
    ∧ (∀ b, (SendRun E msg_id args).2.1 = true →
        E.GetBuffer (SendRun E msg_id args).1 = some b →
        (Send E tSend msg_id args).1 = tSend b)
    ∧ ((-1 : Int) ≠ -2) := by
  refine ⟨fun hb => by simp [Send, hb], fun hb hg => by simp [Send, hb, hg],
    fun b hb hg => by simp [Send, hb, hg], by decide⟩

/-- C5 witness: the two sentinels and the pass through observed on
concrete encoders. -/
theorem C5_send_sentinels_witness :
    (Send closeFailEnc (fun _ => (0 : Int)) 7 ([] : List WireValue)).1 = -1
    ∧ (Send noBufEnc (fun _ => (0 : Int)) 7 ([] : List WireValue)).1 = -2
    ∧ (Send refEncoder (fun fr => (fr.events.length : Int)) 7
        ([] : List WireValue)).1
        = (fun fr : Frame => (fr.events.length : Int)) ⟨0, 7, []⟩ :=
  ⟨(C5_send_sentinels closeFailEnc (fun _ => (0 : Int)) 7 []).1 (by decide),
   (C5_send_sentinels noBufEnc (fun _ => (0 : Int)) 7 []).2.1
      (by decide) (by decide),
   (C5_send_sentinels refEncoder (fun fr => (fr.events.length : Int)) 7
      []).2.2.1 ⟨0, 7, []⟩ (by decide) (by decide)⟩

/-- C6, counterexample to the claim as stated: the argument accessor is
not bounds checked.  On the freshly constructed accumulator, which holds
zero arguments, reading index 0 goes through the unchecked vector
subscript and has no defined result. -/
theorem C6_getarg_oob_counterexample :
    (RxHandler.GetArg RxState.init 0).isSome = false := by decide

/-- C6, amended: `GetArg` is in bounds, hence well defined, exactly for
indices below the argument count (the unchecked vector subscript defines
no value beyond it); every access `Receive` performs is of that form, since
its gathering loop stops at the argument count, so the arguments handed to
the dispatch handler are exactly the accumulated list. -/
theorem C6_getarg_bounds (s : RxState) (ix : Nat) :
    ((RxHandler.GetArg s ix).isSome = true ↔ ix < RxHandler.GetArgCount s)
    ∧ collectArgs s (RxHandler.GetArgCount s) = s.list.map some := by
  constructor
  · rw [RxHandler.GetArg, RxHandler.GetArgCount, List.get?_eq_getElem?,
      Option.isSome_iff_exists]
    constructor
    · rintro ⟨a, ha⟩; exact (List.getElem?_eq_some.mp ha).1
    · intro hlt; exact ⟨s.list[ix], List.getElem?_eq_some.mpr ⟨hlt, rfl⟩⟩
  · rw [RxHandler.GetArgCount, collectArgs_take s _ (le_refl _),
      List.take_length]

/-- C7: for every bit pattern and tag, `OnWord` appends exactly one value
whose variant matches the tag when the tag is one of int32, uint32, char8,
char16, nullstring8 and nullstring16, and returns false leaving the state
unchanged for each of the six remaining tags. -/
theorem C7_onword_cases (s : RxState) (bits : Nat) :
    RxHandler.OnWord s bits .int32
        = ({ s with list := s.list ++ [.int32 (toInt32 bits)] }, true)
    ∧ tagOf (.int32 (toInt32 bits)) = .int32
    ∧ RxHandler.OnWord s bits .uint32
        = ({ s with list := s.list ++ [.uint32 (bits % 4294967296)] }, true)
    ∧ tagOf (.uint32 (bits % 4294967296)) = .uint32
    ∧ RxHandler.OnWord s bits .char8
        = ({ s with list := s.list ++ [.char8 (bits % 256)] }, true)
    ∧ tagOf (.char8 (bits % 256)) = .char8
    ∧ RxHandler.OnWord s bits .char16
        = ({ s with list := s.list ++ [.char16 (bits % 65536)] }, true)
    ∧ tagOf (.char16 (bits % 65536)) = .char16
    ∧ RxHandler.OnWord s bits .nullstring8
        = ({ s with list := s.list ++ [.nullstring8] }, true)
    ∧ tagOf .nullstring8 = .nullstring8
    ∧ RxHandler.OnWord s bits .nullstring16
        = ({ s with list := s.list ++ [.nullstring16] }, true)
    ∧ tagOf .nullstring16 = .nullstring16
    ∧ RxHandler.OnWord s bits .none = (s, false)
    ∧ RxHandler.OnWord s bits .string8 = (s, false)
    ∧ RxHandler.OnWord s bits .barray = (s, false)
    ∧ RxHandler.OnWord s bits .string16 = (s, false)
    ∧ RxHandler.OnWord s bits .unixFd = (s, false)
    ∧ RxHandler.OnWord s bits .winHandle = (s, false) :=
  ⟨rfl, rfl, rfl, rfl, rfl, rfl, rfl, rfl, rfl, rfl, rfl, rfl, rfl, rfl,
   rfl, rfl, rfl, rfl⟩

/-- C8: `Send` performs no argument count cap check: for every argument
list, of any length, it opens the encoder for the full count and encodes
every argument, and with 9 arguments (one over the cap) it still reaches
the transport successfully; the cap rejection exists only on the receive
path. -/
theorem C8_send_no_cap_check (msg_id : Int) (args : List WireValue)
    (tSend : Frame → Int) :
    (Send refEncoder tSend msg_id args).2.head?
        = some (.Open args.length)
    ∧ sendBuffer refEncoder msg_id args
        = some ⟨args.length, msg_id, args.flatMap elemEvents⟩
    ∧ (Send refEncoder tSend msg_id args).1
        = tSend ⟨args.length, msg_id, args.flatMap elemEvents⟩
    ∧ (Send refEncoder (fun fr => (fr.events.length : Int)) 3
        (List.replicate 9 (WireValue.int32 1))).1 = 9
    ∧ (∀ mh, Receive true ⟨List.replicate 9 (WireValue.int32 1), 3⟩ mh
        = (-2, none)) := by
  have hg : refEncoder.GetBuffer
      (⟨args.length, msg_id, args.flatMap elemEvents⟩ : Frame)
      = some ⟨args.length, msg_id, args.flatMap elemEvents⟩ := rfl
  refine ⟨?_, sendBuffer_ref msg_id args, ?_, by decide, fun mh => ?_⟩
  · simp [Send, SendRun_ref msg_id args, hg]
  · simp [Send, SendRun_ref msg_id args, hg]
  · exact Receive_over_cap _ mh (by decide)

/-- C9: an argument whose tag the element step rejects is silently
skipped: `AddMsgElement` on a `none` tagged value returns false without
calling the encoder, the loop discards that flag so the loop result equals
the loop over the list with the `none` elements filtered out, and a
concrete send of an int32 together with a `none` argument produces a frame
announcing two arguments but carrying one encoded event, returning the
transport count 1 with no error. -/
theorem C9_send_skips_none {σ β : Type} (E : EncoderOps σ β) (st : σ)
    (args : List WireValue) :
    AddMsgElement E st WireValue.none = (st, false, [])
    ∧ sendLoop E st args
        = sendLoop E st (args.filter (fun a => decide (tagOf a ≠ Tag.none)))
    ∧ sendBuffer refEncoder 7 [WireValue.int32 42, WireValue.none]
        = some ⟨2, 7, [.word 42 .int32]⟩
    ∧ (Send refEncoder (fun fr => (fr.events.length : Int)) 7
        [WireValue.int32 42, WireValue.none]).1 = 1
    ∧ 0 ≤ (Send refEncoder (fun fr => (fr.events.length : Int)) 7
        [WireValue.int32 42, WireValue.none]).1 :=
  ⟨rfl, sendLoop_filter_none E st args, by decide, by decide, by decide⟩

/-- C10: a fresh accumulator carries the sentinel id -1 and no arguments;
when the decode phase succeeds without any `OnMessageStart` callback the
state is exactly that fresh one, and `Receive` treats it as an ordinary
message: it resolves the dispatch map at id -1 and, when a handler is
registered there, invokes it with message id -1 and zero arguments, so the
sentinel reaches the dispatch collaborator. -/
theorem C10_receive_initial_sentinel
    (mh : Int → Option (Int → List WireValue → Int))
    (f : Int → List WireValue → Int) (hmh : mh (-1) = some f) :
    RxState.init = ⟨[], -1⟩
    ∧ Receive true RxState.init mh = (f (-1) [], some (-1, [])) :=
  ⟨rfl, Receive_success [] (-1) mh f (by decide) hmh⟩

/-- C10 witness: with a handler registered for id -1 that returns the
message id, an empty successful decode dispatches (-1, no arguments). -/
theorem C10_receive_initial_sentinel_witness :
    RxState.init = ⟨[], -1⟩
    ∧ Receive true RxState.init mhNeg
        = ((fun (id : Int) (_ : List WireValue) => id) (-1) [],
           some (-1, [])) :=
  C10_receive_initial_sentinel mhNeg (fun id _ => id) (by simp [mhNeg])
